import Mathlib

/-!
Verification development for the depth-interval core of the `w-geo`
repository: `calcDepthStartEndFromCenter` (src/calcDepthStartEndFromCenter.mjs),
`checkDepthStartEnd` (src/checkDepthStartEnd.mjs) and
`groupByDepthStartEnd` (src/groupByDepthStartEnd.mjs).

The JavaScript functions operate on arrays of plain objects whose fields
are read through `lodash/get` and the `wsemi` numeric predicates.  We embed
JavaScript values as the inductive type `JVal`; numbers are rationals
(every IEEE double that the library manipulates is a rational and all the
arithmetic here is `+`, `min`, `/ 2`, comparisons, which the rationals
model exactly), a value that parses as a number is `JVal.num q`, a
primitive that does not parse is `JVal.raw s`, and `JVal.nul` stands for
JavaScript `null`/`undefined` (what `get(v, key, null)` yields for a
missing field).
-/

inductive JVal where
  | nul : JVal
  | num (q : ℚ) : JVal
  | raw (s : String) : JVal
  | obj (fields : List (String × JVal)) : JVal
  | arr (elems : List JVal) : JVal

/-- `lodash/get(v, key, null)`: field lookup on an object, `null` on anything
else or when the key is absent. -/
def jget : JVal → String → JVal
  | JVal.obj l, k =>
    match l.lookup k with
    | some v => v
    | none => JVal.nul
  | _, _ => JVal.nul

/-- Replace the first binding of `k` in an association list, or append a new
binding at the end — JavaScript property-assignment order semantics. -/
def setEntry : List (String × JVal) → String → JVal → List (String × JVal)
  | [], k, x => [(k, x)]
  | (k', v) :: l, k, x =>
    if k' = k then (k, x) :: l else (k', v) :: setEntry l k x

/-- JavaScript property assignment `v[k] = x`.  Assigning onto a
non-object primitive is a silent no-op (non-strict mode), which is
unreachable in the validated paths we prove about. -/
def jset : JVal → String → JVal → JVal
  | JVal.obj l, k, x => JVal.obj (setEntry l k x)
  | v, _, _ => v

/-- `wsemi isnum`: does the value parse as a (finite) number?  Numbers and
numeric strings are both represented by `JVal.num`. -/
def isnum : JVal → Bool
  | JVal.num _ => true
  | _ => false

/-- `wsemi isearr`: effective (non-empty) array. -/
def isearr : JVal → Bool
  | JVal.arr l => !l.isEmpty
  | _ => false

/-- `wsemi iseobj`: effective (non-empty) plain object. -/
def iseobj : JVal → Bool
  | JVal.obj l => !l.isEmpty
  | _ => false

/-- Modelled from the spec: `wsemi cdbl` is the external numeric-coercion
collaborator ("parse a value to a double-precision number or signal
failure. Assumed correct and total").  On a value that parses it returns
that number; in every validated code path it is only applied to values
that `isnum` accepted, so the fallback value for non-parsable input
(taken as `0`) is never observable in the results proved below. -/
def cdbl : JVal → ℚ
  | JVal.num q => q
  | _ => 0

/-- Elements of an array value; `[]` on anything else. -/
def elemsOf : JVal → List JVal
  | JVal.arr l => l
  | _ => []

/-- `wsemi isestr`-guarded option key: the source reads
`get(opt, 'keyX')` and falls back to the default unless the option is an
effective (non-empty) string. -/
def effStr : Option String → String → String
  | some s, d => if s = "" then d else s
  | none, d => d

/-- The coerced numeric field `key` of the `k`-th element of a list
(`null`, hence `0` after coercion, out of range): the
`cdbl(get(rows, i))[key]` access pattern of the index-based loops. -/
def keyAt (key : String) (l : List JVal) (k : ℕ) : ℚ :=
  cdbl (jget (l.getD k JVal.nul) key)

/-- Structured counterpart of the error-message template strings pushed
into the `errs` array by the source.  Each constructor carries exactly the
data the corresponding template interpolates (the loop index and the
offending values); rendering to the Chinese template string is a
presentation concern.
* `noData`: `'無有效資料'` (structural: rows is not an effective array).
* `noRanges`: `'無有效起訖深度資料'` (structural: ranges neither array nor object).
* `centerNotNum k v`: `` `第 ${k} 樣本中點深度${keyDepth}[${dc}]非有效數字` ``.
* `centerNotIncreasing k d0 d1`: `` `第 ${k-1} 樣本之中點深度...大於等於第 ${k} 樣本...` ``.
* `startNotNum k v` / `endNotNum k v`: the two numeric checks of
  `checkDepthStartEnd`.
* `startGtEnd k ds de`: `` `第 ${k} 個樣本起始深度...大於結束深度...` ``.
* `endNeStart k de0 ds1`: `` `第 ${k} 樣本結束深度...不等於第 ${k+1} 個樣本起始深度...` ``.
* `rangeStartNotNum k v` / `rangeEndNotNum k v`: numeric checks on the
  grouping target ranges.
* `rangeStartGtEnd k ds de`: range with start above end.
* `rangeOverlap k de0 ds1`: `` `第 ${k} 樣本結束深度...大於第 ${k+1} 個樣本起始深度...` ``.
* `depthCheck k d0 d1`: a violation reported by the external
  `checkDepth` collaborator. -/
inductive Err where
  | noData : Err
  | noRanges : Err
  | centerNotNum (k : ℕ) (v : JVal) : Err
  | centerNotIncreasing (k : ℕ) (d0 d1 : ℚ) : Err
  | startNotNum (k : ℕ) (v : JVal) : Err
  | endNotNum (k : ℕ) (v : JVal) : Err
  | startGtEnd (k : ℕ) (ds de : ℚ) : Err
  | endNeStart (k : ℕ) (de0 ds1 : ℚ) : Err
  | rangeStartNotNum (k : ℕ) (v : JVal) : Err
  | rangeEndNotNum (k : ℕ) (v : JVal) : Err
  | rangeStartGtEnd (k : ℕ) (ds de : ℚ) : Err
  | rangeOverlap (k : ℕ) (de0 ds1 : ℚ) : Err
  | depthCheck (k : ℕ) (d0 d1 : ℚ) : Err

/-- Sort key comparison used by every `sortBy(rows, v => cdbl(v[key]))` in
the source: ascending by the coerced numeric field.  lodash `sortBy` is a
stable ascending sort; `List.insertionSort` with this relation is the same
stable sort. -/
def depthLe (kd : String) (a b : JVal) : Prop :=
  cdbl (jget a kd) ≤ cdbl (jget b kd)

instance (kd : String) : DecidableRel (depthLe kd) :=
  fun a b => inferInstanceAs (Decidable (cdbl (jget a kd) ≤ cdbl (jget b kd)))

instance (kd : String) : IsTotal JVal (depthLe kd) :=
  ⟨fun a b => le_total (cdbl (jget a kd)) (cdbl (jget b kd))⟩

instance (kd : String) : IsTrans JVal (depthLe kd) :=
  ⟨fun _ _ _ => le_trans⟩

/-- The stable ascending sort `sortBy(rows, v => cdbl(v[kd]))`. -/
def sortByKey (kd : String) (l : List JVal) : List JVal :=
  List.insertionSort (depthLe kd) l

/-- Modelled from the spec: `judge` is imported from `./dm.mjs`, which is
not part of the core source set; per the spec, interval comparisons are
exact ("equality must be exact numeric equality, not proximity"), so
`judge(a, op, b)` is the exact comparison named by `op`. -/
def judge (a : ℚ) (op : String) (b : ℚ) : Bool :=
  if op = ">" then decide (a > b)
  else if op = "!==" then decide (a ≠ b)
  else false

/-! ## calcDepthStartEndFromCenter (src/calcDepthStartEndFromCenter.mjs) -/

/-- Options object of `calcDepthStartEndFromCenter` and
`groupByDepthStartEnd`: recognized keys `keyDepth`, `keyGroup`,
`keyDepthStart`, `keyDepthEnd` (each used only when it is an effective
string).  `keyGroup` is listed in the source's JSDoc but never read by
either implementation. -/
structure GOpt where
  keyDepth : Option String
  keyGroup : Option String
  keyDepthStart : Option String
  keyDepthEnd : Option String

/-- All-default options (`opt = {}`). -/
def gdef : GOpt := ⟨none, none, none, none⟩

/-- First validation loop of `calcDepthStartEndFromCenter` and
`groupByDepthStartEnd`: every sample's center-depth field must satisfy
`isnum`, each failure pushing one message carrying the index and the raw
value. -/
def centerErrs (kd : String) (rl : List JVal) : List Err :=
  (List.range rl.length).filterMap fun k =>
    if isnum (jget (rl.getD k JVal.nul) kd) then none
    else some (Err.centerNotNum k (jget (rl.getD k JVal.nul) kd))

/-- Post-sort adjacent check of `calcDepthStartEndFromCenter`: for `k ≥ 1`,
an error when `cdbl(depth(k-1)) ≥ cdbl(depth(k))` (duplicates and
inversions alike). -/
def dupErrs (kd : String) (srl : List JVal) : List Err :=
  (List.range srl.length).filterMap fun k =>
    if k = 0 then none
    else if keyAt kd srl (k - 1) ≥ keyAt kd srl k then
      some (Err.centerNotIncreasing k (keyAt kd srl (k - 1)) (keyAt kd srl k))
    else none

/-- The `ds` computation of `calcDepthStartEndFromCenter` at index `k`,
reading the array state `cur` passed to it — during the final `map` this
is the *live* array, whose records at indices `< k` have already received
their output fields: at `k = 0`, `ds = 0` unless the own depth is
numeric, in which case `ds = min(0, depth)`; otherwise the midpoint of
the `k - 1` and `k` depths when both are numeric, else `null`.
(`keyAt kd cur j` is `cdbl` of the depth field of `get(rows, j)`; at
`k = 0` the source never consults the `k - 1` neighbour because the
`k === 0` branch is taken first.) -/
def startVal (kd : String) (cur : List JVal) (k : ℕ) : JVal :=
  if k = 0 then
    if isnum (jget (cur.getD 0 JVal.nul) kd) then
      JVal.num (min 0 (keyAt kd cur 0))
    else JVal.num 0
  else if isnum (jget (cur.getD (k - 1) JVal.nul) kd) &&
      isnum (jget (cur.getD k JVal.nul) kd) then
    JVal.num ((keyAt kd cur (k - 1) + keyAt kd cur k) / 2)
  else JVal.nul

/-- The `de` computation of `calcDepthStartEndFromCenter` at index `k` on
the array state `cur`: at the last index (`up = size(rows) - 1`; every
step preserves the length, so `cur.length - 1` is `up`) the own depth
itself when numeric, else `null`; otherwise the midpoint with the `k + 1`
depth when both are numeric, else `null` (`get(rows, k + 1)` past the
end is `undefined`, whose depth is not numeric). -/
def endVal (kd : String) (cur : List JVal) (k : ℕ) : JVal :=
  if k = cur.length - 1 then
    if isnum (jget (cur.getD k JVal.nul) kd) then JVal.num (keyAt kd cur k)
    else JVal.nul
  else if isnum (jget (cur.getD k JVal.nul) kd) &&
      isnum (jget (cur.getD (k + 1) JVal.nul) kd) then
    JVal.num ((keyAt kd cur k + keyAt kd cur (k + 1)) / 2)
  else JVal.nul

/-- One iteration of the final `map` of `calcDepthStartEndFromCenter`:
the callback at index `k` first reads `dc0`/`dc1`/`dc2` from the live
array (`get(rows, k - 1)` sees the record already mutated at iteration
`k - 1`; indices `≥ k` are still pristine), computes `ds`/`de`, and only
then performs the two property writes
`v[keyDepthStart] = ds; v[keyDepthEnd] = de` onto the record at `k`. -/
def assignStep (kd ks ke : String) (cur : List JVal) (k : ℕ) : List JVal :=
  cur.set k (jset (jset (cur.getD k JVal.nul) ks (startVal kd cur k)) ke
    (endVal kd cur k))

/-- The first `m` iterations of the final `map`, threading the in-place
mutation of the row array through the fold. -/
def assignIter (kd ks ke : String) (srl : List JVal) (m : ℕ) : List JVal :=
  (List.range m).foldl (assignStep kd ks ke) srl

/-- The final `map` of `calcDepthStartEndFromCenter` over the sorted
rows: the source mutates the row objects in place while later iterations
read the neighbours from the same live array, and returns the array of
those same (now fully mutated) records — the fold's final state. -/
def assignStartEnd (kd ks ke : String) (srl : List JVal) : List JVal :=
  assignIter kd ks ke srl srl.length

/-- The record that iteration `k` produces, *expressed against the
pre-map snapshot* `srl`.  When the depth key is distinct from both
output keys — the data model's three distinct fields — no write can
touch a depth field, so the live reads coincide with the snapshot and
the fold provably yields exactly this record at index `k`
(`assignStartEnd_getD_eq`). -/
def assignOne (kd ks ke : String) (srl : List JVal) (k : ℕ) : JVal :=
  jset (jset (srl.getD k JVal.nul) ks (startVal kd srl k)) ke
    (endVal kd srl k)

/-- `calcDepthStartEndFromCenter(rows, opt)`.  A `throw new Error(...)` in
the source is `Except.error` carrying the structured message list that the
source would `join('; ')` into the single error message. -/
def calcDepthStartEndFromCenter (rows : JVal) (opt : GOpt) :
    Except (List Err) (List JVal) :=
  if !isearr rows then Except.error [Err.noData]
  else if !(centerErrs (effStr opt.keyDepth "depth") (elemsOf rows)).isEmpty then
    Except.error (centerErrs (effStr opt.keyDepth "depth") (elemsOf rows))
  else if !(dupErrs (effStr opt.keyDepth "depth")
      (sortByKey (effStr opt.keyDepth "depth") (elemsOf rows))).isEmpty then
    Except.error (dupErrs (effStr opt.keyDepth "depth")
      (sortByKey (effStr opt.keyDepth "depth") (elemsOf rows)))
  else Except.ok (assignStartEnd (effStr opt.keyDepth "depth")
    (effStr opt.keyDepthStart "depthStart") (effStr opt.keyDepthEnd "depthEnd")
    (sortByKey (effStr opt.keyDepth "depth") (elemsOf rows)))

/-! ## checkDepthStartEnd (src/checkDepthStartEnd.mjs) -/

/-- Options object of `checkDepthStartEnd`: recognized keys
`keyDepthStart`, `keyDepthEnd`. -/
structure COpt where
  keyDepthStart : Option String
  keyDepthEnd : Option String

/-- All-default options (`opt = {}`). -/
def cdef : COpt := ⟨none, none⟩

/-- First loop of `checkDepthStartEnd`: both depth fields of every record
must satisfy `isnum`; both failures for one record are pushed, start
first. -/
def startEndNumErrs (ks ke : String) (rl : List JVal) : List Err :=
  (List.range rl.length).flatMap fun k =>
    (if isnum (jget (rl.getD k JVal.nul) ks) then []
     else [Err.startNotNum k (jget (rl.getD k JVal.nul) ks)]) ++
    (if isnum (jget (rl.getD k JVal.nul) ke) then []
     else [Err.endNotNum k (jget (rl.getD k JVal.nul) ke)])

/-- Second loop of `checkDepthStartEnd`, over the rows sorted ascending by
coerced start: at each index the inverted-interval check
(`judge(ds1, '>', de1)`), then — except at index 0 — the exact
discontinuity check `judge(de0, '!==', ds1)` against the previous
record. -/
def pairScanErrs (ks ke : String) (srl : List JVal) : List Err :=
  (List.range srl.length).flatMap fun k =>
    (if judge (keyAt ks srl k) ">" (keyAt ke srl k) then
       [Err.startGtEnd k (keyAt ks srl k) (keyAt ke srl k)]
     else []) ++
    (if k = 0 then []
     else if judge (keyAt ke srl (k - 1)) "!==" (keyAt ks srl k) then
       [Err.endNeStart k (keyAt ke srl (k - 1)) (keyAt ks srl k)]
     else [])

/-- `checkDepthStartEnd(rows, opt)`: returns the violation list; a
non-array (or empty-array) input short-circuits to `[]`. -/
def checkDepthStartEnd (rows : JVal) (opt : COpt) : List Err :=
  if !isearr rows then []
  else
    let ks := effStr opt.keyDepthStart "depthStart"
    let ke := effStr opt.keyDepthEnd "depthEnd"
    let rl := elemsOf rows
    let errs1 := startEndNumErrs ks ke rl
    let srl := sortByKey ks rl
    errs1 ++ pairScanErrs ks ke srl

/-! ## groupByDepthStartEnd (src/groupByDepthStartEnd.mjs) -/

/-- Modelled from the spec: `checkDepth` is imported from
`./checkDepth.mjs`, which is not part of the core source set; per the spec
it is the "Depth Gap/Duplicate Checker" collaborator: "given a sequence
sorted by a depth field, returns violation strings for non-increasing
adjacent depths" (mirroring the check embedded directly in
`calcDepthStartEndFromCenter`). -/
def checkDepth (kd : String) (rows : List JVal) : List Err :=
  (List.range rows.length).filterMap fun k =>
    if k = 0 then none
    else if keyAt kd rows (k - 1) ≥ keyAt kd rows k then
      some (Err.depthCheck k (keyAt kd rows (k - 1)) (keyAt kd rows k))
    else none

/-- `if (iseobj(depthStartAndEnds)) depthStartAndEnds = [depthStartAndEnds]`:
a single target-range object becomes a one-element sequence, an array
contributes its elements. -/
def normRanges (dses : JVal) : List JVal :=
  if iseobj dses then [dses] else elemsOf dses

/-- Numeric validation of the target ranges: start and end of each range
must satisfy `isnum`, both failures pushed, start first. -/
def rangeNumErrs (ks ke : String) (ds : List JVal) : List Err :=
  (List.range ds.length).flatMap fun k =>
    (if isnum (jget (ds.getD k JVal.nul) ks) then []
     else [Err.rangeStartNotNum k (jget (ds.getD k JVal.nul) ks)]) ++
    (if isnum (jget (ds.getD k JVal.nul) ke) then []
     else [Err.rangeEndNotNum k (jget (ds.getD k JVal.nul) ke)])

/-- Order validation of the target ranges, in the caller's given order: at
each index, `ds1 > de1` is an inverted range; for `k ≥ 1`,
`de0 > ds1` (previous end above next start) is an ordering violation —
contiguity is *not* required. -/
def rangeOrderErrs (ks ke : String) (ds : List JVal) : List Err :=
  (List.range ds.length).flatMap fun k =>
    (if keyAt ks ds k > keyAt ke ds k then
       [Err.rangeStartGtEnd k (keyAt ks ds k) (keyAt ke ds k)]
     else []) ++
    (if k = 0 then []
     else if keyAt ke ds (k - 1) > keyAt ks ds k then
       [Err.rangeOverlap k (keyAt ke ds (k - 1)) (keyAt ks ds k)]
     else [])

/-- The detect loop of one grouping round: scan the pool `ts` in order; a
sample with coerced depth in `[ds, de]` is collected (`rdels`/`rrows` in
the source) and, after the round, removed by `pullAt`; once a sample's
depth exceeds `de` the loop `break`s, leaving the rest of the pool
untouched.  Collecting and removing in one pass, the result is the pair
(collected samples, remaining pool in original order) — exactly
`rrows` and `ts` after `pullAt(ts, rdels)`. -/
def scanRange (kd : String) (ds de : ℚ) : List JVal → List JVal × List JVal
  | [] => ([], [])
  | t :: ts =>
    let d := cdbl (jget t kd)
    if ds ≤ d ∧ d ≤ de then
      let p := scanRange kd ds de ts
      (t :: p.1, p.2)
    else if de < d then ([], t :: ts)
    else
      let p := scanRange kd ds de ts
      (p.1, t :: p.2)

/-- The final `map` of `groupByDepthStartEnd` over the target ranges,
threading the mutable pool `ts`: each range record gets the matched
samples assigned under the literal property name `rows`
(`v.rows = cloneDeep(rrows)` in the source). -/
def groupLoop (kd ks ke : String) : List JVal → List JVal → List JVal
  | _, [] => []
  | ts, r :: rs =>
    let ds := cdbl (jget r ks)
    let de := cdbl (jget r ke)
    let p := scanRange kd ds de ts
    jset r "rows" (JVal.arr p.1) :: groupLoop kd ks ke p.2 rs

/-- `groupByDepthStartEnd(rows, depthStartAndEnds, opt)`.  `cloneDeep` is
the identity in the pure embedding.  The sample-membership test of the
source reads `t[keyDepth]` and compares it with JavaScript relational
operators, which coerce to number; validation has already guaranteed the
field is numeric, so this is `cdbl (jget t kd)`. -/
def groupByDepthStartEnd (rows dses : JVal) (opt : GOpt) :
    Except (List Err) (List JVal) :=
  if !isearr rows then Except.error [Err.noData]
  else if !isearr dses && !iseobj dses then Except.error [Err.noRanges]
  else if !(centerErrs (effStr opt.keyDepth "depth") (elemsOf rows)).isEmpty then
    Except.error (centerErrs (effStr opt.keyDepth "depth") (elemsOf rows))
  else if !(checkDepth (effStr opt.keyDepth "depth")
      (sortByKey (effStr opt.keyDepth "depth") (elemsOf rows))).isEmpty then
    Except.error (checkDepth (effStr opt.keyDepth "depth")
      (sortByKey (effStr opt.keyDepth "depth") (elemsOf rows)))
  else if !(rangeNumErrs (effStr opt.keyDepthStart "depthStart")
      (effStr opt.keyDepthEnd "depthEnd") (normRanges dses)).isEmpty then
    Except.error (rangeNumErrs (effStr opt.keyDepthStart "depthStart")
      (effStr opt.keyDepthEnd "depthEnd") (normRanges dses))
  else if !(rangeOrderErrs (effStr opt.keyDepthStart "depthStart")
      (effStr opt.keyDepthEnd "depthEnd") (normRanges dses)).isEmpty then
    Except.error (rangeOrderErrs (effStr opt.keyDepthStart "depthStart")
      (effStr opt.keyDepthEnd "depthEnd") (normRanges dses))
  else Except.ok (groupLoop (effStr opt.keyDepth "depth")
    (effStr opt.keyDepthStart "depthStart") (effStr opt.keyDepthEnd "depthEnd")
    (sortByKey (effStr opt.keyDepth "depth") (elemsOf rows)) (normRanges dses))

/-- The attached sample list of an output group: the array stored under
the literal field `rows`. -/
def rowsList (g : JVal) : List JVal :=
  match jget g "rows" with
  | JVal.arr l => l
  | _ => []

/-! ## Derived notions used in the statements -/

/-- Boolean sample-membership test of one grouping round: coerced depth in
`[ds, de]`, both ends inclusive. -/
def memB (kd : String) (ds de : ℚ) (t : JVal) : Bool :=
  decide (ds ≤ cdbl (jget t kd) ∧ cdbl (jget t kd) ≤ de)

/-- Propositional form of `memB` against a target-range record. -/
def memQ (kd ks ke : String) (r t : JVal) : Prop :=
  cdbl (jget r ks) ≤ cdbl (jget t kd) ∧ cdbl (jget t kd) ≤ cdbl (jget r ke)

instance (kd ks ke : String) (r t : JVal) : Decidable (memQ kd ks ke r t) :=
  inferInstanceAs (Decidable (_ ∧ _))

/-- A sample matched by none of the given target ranges (it would survive
the whole grouping scan). -/
def unclaimed (kd ks ke : String) (rs : List JVal) (t : JVal) : Bool :=
  rs.all fun r => !memB kd (cdbl (jget r ks)) (cdbl (jget r ke)) t

/-- Validity of an already-intervaled batch, as `checkDepthStartEnd`
checks it: every record's start and end parse as numbers; after the
stable ascending sort by coerced start, no record has start above end and
every adjacent pair is exactly contiguous. -/
def ValidDepthStartEnd (ks ke : String) (rl : List JVal) : Prop :=
  (∀ t ∈ rl, isnum (jget t ks) = true ∧ isnum (jget t ke) = true) ∧
  (∀ k, k < rl.length →
    keyAt ks (sortByKey ks rl) k ≤ keyAt ke (sortByKey ks rl) k) ∧
  (∀ k, 1 ≤ k → k < rl.length →
    keyAt ke (sortByKey ks rl) (k - 1) = keyAt ks (sortByKey ks rl) k)

/-! ## Concrete inputs used by the witnesses and counterexamples -/

/-- Center-depth rows `[{depth: 0}, {depth: 6}, {depth: 20}]` (scenario 1
of the spec). -/
def exCenterRows : JVal := JVal.arr
  [JVal.obj [("depth", JVal.num 0)],
   JVal.obj [("depth", JVal.num 6)],
   JVal.obj [("depth", JVal.num 20)]]

/-- The interval output derived from `exCenterRows`. -/
def exCenterOut : List JVal :=
  [JVal.obj [("depth", JVal.num 0), ("depthStart", JVal.num 0),
     ("depthEnd", JVal.num 3)],
   JVal.obj [("depth", JVal.num 6), ("depthStart", JVal.num 3),
     ("depthEnd", JVal.num 13)],
   JVal.obj [("depth", JVal.num 20), ("depthStart", JVal.num 13),
     ("depthEnd", JVal.num 20)]]

/-- Rows with two unparsable center depths (indices 0 and 2). -/
def exBadRows : JVal := JVal.arr
  [JVal.obj [("depth", JVal.raw "x")],
   JVal.obj [("depth", JVal.num 1)],
   JVal.obj [("depth", JVal.raw "y")]]

/-- Contiguous intervals `[[0,5],[5,10],[10,20]]` (scenario 4). -/
def exIntervalsOk : JVal := JVal.arr
  [JVal.obj [("depthStart", JVal.num 0), ("depthEnd", JVal.num 5)],
   JVal.obj [("depthStart", JVal.num 5), ("depthEnd", JVal.num 10)],
   JVal.obj [("depthStart", JVal.num 10), ("depthEnd", JVal.num 20)]]

/-- Discontinuous intervals `[[0,5],[10,20]]` (scenario 5). -/
def exIntervalsGap : JVal := JVal.arr
  [JVal.obj [("depthStart", JVal.num 0), ("depthEnd", JVal.num 5)],
   JVal.obj [("depthStart", JVal.num 10), ("depthEnd", JVal.num 20)]]

/-- Grouping samples at depths `[0, 1, 3, 10]` (scenario 6). -/
def exGRows : JVal := JVal.arr
  [JVal.obj [("depth", JVal.num 0)],
   JVal.obj [("depth", JVal.num 1)],
   JVal.obj [("depth", JVal.num 3)],
   JVal.obj [("depth", JVal.num 10)]]

/-- Target ranges `[[0,1],[1,4]]` sharing the boundary depth 1. -/
def exGRanges : JVal := JVal.arr
  [JVal.obj [("depthStart", JVal.num 0), ("depthEnd", JVal.num 1)],
   JVal.obj [("depthStart", JVal.num 1), ("depthEnd", JVal.num 4)]]

/-- Target ranges `[[0,1],[1,4],[4,10]]`: sequential and jointly covering
every depth of `exGRows`. -/
def exGRangesCover : JVal := JVal.arr
  [JVal.obj [("depthStart", JVal.num 0), ("depthEnd", JVal.num 1)],
   JVal.obj [("depthStart", JVal.num 1), ("depthEnd", JVal.num 4)],
   JVal.obj [("depthStart", JVal.num 4), ("depthEnd", JVal.num 10)]]

/-- Options with a non-default attached-sample-list key `keyGroup = "g"`. -/
def gkg : GOpt := ⟨none, some "g", none, none⟩

/-- The grouping output for `exGRows` with `exGRanges` (first doc example
of the source): the boundary sample at depth 1 is claimed by the first
range, the sample at depth 10 by none. -/
def exGOut : List JVal :=
  [JVal.obj [("depthStart", JVal.num 0), ("depthEnd", JVal.num 1),
     ("rows", JVal.arr [JVal.obj [("depth", JVal.num 0)],
        JVal.obj [("depth", JVal.num 1)]])],
   JVal.obj [("depthStart", JVal.num 1), ("depthEnd", JVal.num 4),
     ("rows", JVal.arr [JVal.obj [("depth", JVal.num 3)]])]]

/-- The grouping output for `exGRows` with the covering ranges
`exGRangesCover`. -/
def exGOutCover : List JVal :=
  [JVal.obj [("depthStart", JVal.num 0), ("depthEnd", JVal.num 1),
     ("rows", JVal.arr [JVal.obj [("depth", JVal.num 0)],
        JVal.obj [("depth", JVal.num 1)]])],
   JVal.obj [("depthStart", JVal.num 1), ("depthEnd", JVal.num 4),
     ("rows", JVal.arr [JVal.obj [("depth", JVal.num 3)]])],
   JVal.obj [("depthStart", JVal.num 4), ("depthEnd", JVal.num 10),
     ("rows", JVal.arr [JVal.obj [("depth", JVal.num 10)]])]]

/-! ## Basic lemmas about the value model -/

theorem lookup_setEntry_self (l : List (String × JVal)) (k : String) (x : JVal) :
    (setEntry l k x).lookup k = some x := by
  induction l with
  | nil => simp [setEntry, List.lookup]
  | cons p l ih =>
    obtain ⟨k', v⟩ := p
    by_cases h : k' = k
    · simp [setEntry, h, List.lookup]
    · simp only [setEntry, if_neg h, List.lookup]
      rw [show (k == k') = false from beq_eq_false_iff_ne.mpr (Ne.symm h)]
      exact ih

theorem lookup_setEntry_ne (l : List (String × JVal)) (k k' : String) (x : JVal)
    (h : k' ≠ k) : (setEntry l k x).lookup k' = l.lookup k' := by
  induction l with
  | nil =>
    simp only [setEntry, List.lookup]
    rw [show (k' == k) = false from beq_eq_false_iff_ne.mpr h]
  | cons p l ih =>
    obtain ⟨k0, v⟩ := p
    by_cases hp : k0 = k
    · subst hp
      simp only [setEntry, if_pos rfl, List.lookup]
      rw [show (k' == k0) = false from beq_eq_false_iff_ne.mpr h]
    · simp only [setEntry, if_neg hp, List.lookup]
      cases hkk : (k' == k0) with
      | true => rfl
      | false => exact ih

theorem jget_jset_self (l : List (String × JVal)) (k : String) (x : JVal) :
    jget (jset (JVal.obj l) k x) k = x := by
  simp [jset, jget, lookup_setEntry_self]

theorem jget_jset_ne (v : JVal) (k k' : String) (x : JVal) (h : k' ≠ k) :
    jget (jset v k x) k' = jget v k' := by
  cases v <;> simp [jset, jget]
  rw [lookup_setEntry_ne _ _ _ _ h]

theorem isnum_jget_obj (v : JVal) (k : String) (h : isnum (jget v k) = true) :
    ∃ l, v = JVal.obj l := by
  cases v <;> simp_all [jget, isnum]

theorem isearr_of_elems (rows : JVal) (h : 0 < (elemsOf rows).length) :
    isearr rows = true := by
  cases rows <;> simp_all [elemsOf, isearr, List.isEmpty_iff]
  intro he
  simp [he] at h

/-! ## Claim C9 -/

/-- C9: when the input to `checkDepthStartEnd` is not an effective
(non-empty) array — a non-array value or an empty array — the function
returns the empty list, the same result that signals a fully valid input,
rather than raising or reporting a structural defect. -/
theorem checkDepthStartEnd_non_array (rows : JVal) (opt : COpt)
    (h : isearr rows = false) : checkDepthStartEnd rows opt = [] := by
  simp [checkDepthStartEnd, h]

theorem checkDepthStartEnd_non_array_witness :
    checkDepthStartEnd (JVal.arr []) cdef = [] ∧
    checkDepthStartEnd (JVal.num 5) cdef = [] := by
  exact ⟨checkDepthStartEnd_non_array (JVal.arr []) cdef rfl,
         checkDepthStartEnd_non_array (JVal.num 5) cdef rfl⟩

/-! ## Claim C8 -/

theorem centerErrs_mem (kd : String) (rl : List JVal) (k : ℕ) (v : JVal) :
    Err.centerNotNum k v ∈ centerErrs kd rl ↔
      k < rl.length ∧ isnum (jget (rl.getD k JVal.nul) kd) = false ∧
        v = jget (rl.getD k JVal.nul) kd := by
  simp only [centerErrs, List.mem_filterMap, List.mem_range, List.getD,
    List.get?_eq_getElem?]
  constructor
  · rintro ⟨a, ha, hf⟩
    split at hf
    · exact Option.noConfusion hf
    · rename_i hnum
      rw [Option.some.injEq] at hf
      obtain ⟨hk, hv⟩ := Err.centerNotNum.inj hf
      subst hk
      exact ⟨ha, Bool.eq_false_iff.mpr hnum, hv.symm⟩
  · rintro ⟨hk, h, hv⟩
    refine ⟨k, hk, ?_⟩
    rw [if_neg (by simp [h]), hv]

/-- C8: for an effective-array input whose center-depth validation finds
at least one unparsable value, `calcDepthStartEndFromCenter` aborts with
the single combined error carrying the whole accumulated message list —
one entry per offending index with its raw value, and nothing else — and
produces no interval output. -/
theorem calc_accumulated_error (rows : JVal) (opt : GOpt)
    (ha : isearr rows = true)
    (hb : centerErrs (effStr opt.keyDepth "depth") (elemsOf rows) ≠ []) :
    calcDepthStartEndFromCenter rows opt =
      Except.error (centerErrs (effStr opt.keyDepth "depth") (elemsOf rows)) ∧
    ∀ k v, Err.centerNotNum k v ∈
        centerErrs (effStr opt.keyDepth "depth") (elemsOf rows) ↔
      (k < (elemsOf rows).length ∧
       isnum (jget ((elemsOf rows).getD k JVal.nul)
         (effStr opt.keyDepth "depth")) = false ∧
       v = jget ((elemsOf rows).getD k JVal.nul) (effStr opt.keyDepth "depth")) := by
  refine ⟨?_, fun k v => centerErrs_mem _ _ k v⟩
  rw [← List.isEmpty_eq_false] at hb
  simp [calcDepthStartEndFromCenter, ha, hb]

theorem calc_accumulated_error_witness :
    calcDepthStartEndFromCenter exBadRows gdef =
      Except.error [Err.centerNotNum 0 (JVal.raw "x"),
        Err.centerNotNum 2 (JVal.raw "y")] ∧
    (Err.centerNotNum 0 (JVal.raw "x") ∈ centerErrs "depth" (elemsOf exBadRows) ∧
     Err.centerNotNum 2 (JVal.raw "y") ∈ centerErrs "depth" (elemsOf exBadRows)) := by
  have hc : centerErrs (effStr gdef.keyDepth "depth") (elemsOf exBadRows) =
      [Err.centerNotNum 0 (JVal.raw "x"), Err.centerNotNum 2 (JVal.raw "y")] := by
    with_unfolding_all rfl
  have h := calc_accumulated_error exBadRows gdef rfl (by rw [hc]; exact List.cons_ne_nil _ _)
  refine ⟨hc ▸ h.1, ?_, ?_⟩
  · exact ((h.2 0 (JVal.raw "x")).mpr (by refine ⟨by decide, ?_, ?_⟩ <;> rfl))
  · exact ((h.2 2 (JVal.raw "y")).mpr (by refine ⟨by decide, ?_, ?_⟩ <;> rfl))

/-! ## Lemmas about the two loops of checkDepthStartEnd -/

theorem startEndNumErrs_eq_nil (ks ke : String) (rl : List JVal) :
    startEndNumErrs ks ke rl = [] ↔
      ∀ t ∈ rl, isnum (jget t ks) = true ∧ isnum (jget t ke) = true := by
  rw [startEndNumErrs, List.flatMap_eq_nil_iff]
  constructor
  · intro h t ht
    obtain ⟨i, hi, rfl⟩ := List.mem_iff_getElem.mp ht
    have hc := h i (List.mem_range.mpr hi)
    rw [List.getD_eq_getElem _ _ hi] at hc
    by_cases h1 : isnum (jget rl[i] ks) = true <;>
      by_cases h2 : isnum (jget rl[i] ke) = true <;>
      simp [h1, h2] at hc ⊢
  · intro h k hk
    rw [List.mem_range] at hk
    rw [List.getD_eq_getElem _ _ hk]
    have := h rl[k] (List.getElem_mem hk)
    simp [this.1, this.2]

theorem judge_gt_eq (a b : ℚ) : judge a ">" b = decide (a > b) := by
  simp [judge]

theorem judge_ne_eq (a b : ℚ) : judge a "!==" b = decide (a ≠ b) := by
  simp [judge]

theorem pairScanErrs_eq_nil (ks ke : String) (srl : List JVal) :
    pairScanErrs ks ke srl = [] ↔
      (∀ k, k < srl.length → keyAt ks srl k ≤ keyAt ke srl k) ∧
      (∀ k, 1 ≤ k → k < srl.length →
        keyAt ke srl (k - 1) = keyAt ks srl k) := by
  rw [pairScanErrs, List.flatMap_eq_nil_iff]
  constructor
  · intro h
    constructor
    · intro k hk
      have hc := (List.append_eq_nil.mp (h k (List.mem_range.mpr hk))).1
      rw [judge_gt_eq] at hc
      by_cases hgt : keyAt ks srl k > keyAt ke srl k
      · rw [if_pos (decide_eq_true hgt)] at hc
        exact absurd hc (List.cons_ne_nil _ _)
      · exact le_of_not_lt hgt
    · intro k hk1 hk
      have hc := (List.append_eq_nil.mp (h k (List.mem_range.mpr hk))).2
      rw [if_neg (by omega : ¬ k = 0), judge_ne_eq] at hc
      by_cases hne : keyAt ke srl (k - 1) = keyAt ks srl k
      · exact hne
      · rw [if_pos (decide_eq_true hne)] at hc
        exact absurd hc (List.cons_ne_nil _ _)
  · rintro ⟨hle, heq⟩ k hk
    rw [List.mem_range] at hk
    rw [List.append_eq_nil]
    constructor
    · rw [judge_gt_eq,
        if_neg (by rw [decide_eq_true_eq]; exact not_lt_of_le (hle k hk))]
    · by_cases hk0 : k = 0
      · rw [if_pos hk0]
      · rw [if_neg hk0, judge_ne_eq,
          if_neg (by
            rw [decide_eq_true_eq]
            exact not_not_intro (heq k (by omega) hk))]

/-! ## Claim C6 -/

/-- C6: `checkDepthStartEnd` is a total function returning a violation
list for every input (a `throw` never occurs — its result type is a plain
list, not an exceptional one), and the empty list is returned exactly when
an effective-array input is valid: all start/end fields parse as numbers
and, after the ascending sort by start, no record is inverted and every
adjacent pair is exactly contiguous.  The caller decides what to do with
a non-empty result. -/
theorem checkDepthStartEnd_empty_iff_valid (rows : JVal) (opt : COpt) :
    checkDepthStartEnd rows opt = [] ↔
      (isearr rows = true →
        ValidDepthStartEnd (effStr opt.keyDepthStart "depthStart")
          (effStr opt.keyDepthEnd "depthEnd") (elemsOf rows)) := by
  by_cases h : isearr rows = true
  · have hlen : (sortByKey (effStr opt.keyDepthStart "depthStart")
        (elemsOf rows)).length = (elemsOf rows).length :=
      (List.perm_insertionSort _ _).length_eq
    have hrw : checkDepthStartEnd rows opt =
        startEndNumErrs (effStr opt.keyDepthStart "depthStart")
          (effStr opt.keyDepthEnd "depthEnd") (elemsOf rows) ++
        pairScanErrs (effStr opt.keyDepthStart "depthStart")
          (effStr opt.keyDepthEnd "depthEnd")
          (sortByKey (effStr opt.keyDepthStart "depthStart") (elemsOf rows)) := by
      rw [checkDepthStartEnd, h]
      rfl
    rw [hrw, List.append_eq_nil, startEndNumErrs_eq_nil, pairScanErrs_eq_nil]
    constructor
    · rintro ⟨h1, h2, h3⟩ _
      exact ⟨h1, fun k hk => h2 k (by rw [hlen]; exact hk),
             fun k hk1 hk => h3 k hk1 (by rw [hlen]; exact hk)⟩
    · intro hv
      obtain ⟨h1, h2, h3⟩ := hv h
      exact ⟨h1, fun k hk => h2 k (by rw [← hlen]; exact hk),
             fun k hk1 hk => h3 k hk1 (by rw [← hlen]; exact hk)⟩
  · rw [Bool.not_eq_true] at h
    simp [checkDepthStartEnd, h]

/-! ## Claim C7 -/

theorem endNeStart_not_mem_numErrs (ks ke : String) (rl : List JVal)
    (k : ℕ) (x y : ℚ) : Err.endNeStart k x y ∉ startEndNumErrs ks ke rl := by
  intro hmem
  rw [startEndNumErrs, List.mem_flatMap] at hmem
  obtain ⟨a, -, hmem⟩ := hmem
  rw [List.mem_append] at hmem
  rcases hmem with hm | hm <;> (split at hm <;> simp at hm)

theorem endNeStart_mem_pairScan (ks ke : String) (srl : List JVal)
    (k : ℕ) (x y : ℚ) :
    Err.endNeStart k x y ∈ pairScanErrs ks ke srl ↔
      (1 ≤ k ∧ k < srl.length ∧ keyAt ke srl (k - 1) ≠ keyAt ks srl k ∧
       x = keyAt ke srl (k - 1) ∧ y = keyAt ks srl k) := by
  rw [pairScanErrs, List.mem_flatMap]
  constructor
  · rintro ⟨a, ha, hm⟩
    rw [List.mem_range] at ha
    rw [List.mem_append] at hm
    rcases hm with hm | hm
    · split at hm <;> simp at hm
    · by_cases ha0 : a = 0
      · rw [if_pos ha0] at hm
        exact absurd hm (List.not_mem_nil _)
      · rw [if_neg ha0, judge_ne_eq] at hm
        split at hm
        · rename_i hcond
          rw [decide_eq_true_eq] at hcond
          rw [List.mem_singleton] at hm
          obtain ⟨hk, hx, hy⟩ := Err.endNeStart.inj hm
          subst hk
          exact ⟨by omega, ha, hcond, hx, hy⟩
        · exact absurd hm (List.not_mem_nil _)
  · rintro ⟨hk1, hk, hne, hx, hy⟩
    refine ⟨k, List.mem_range.mpr hk, ?_⟩
    rw [List.mem_append]
    right
    rw [if_neg (by omega : ¬ k = 0), judge_ne_eq, if_pos (decide_eq_true hne),
      hx, hy]
    exact List.mem_singleton.mpr rfl

/-- C7: in `checkDepthStartEnd`, over the rows sorted ascending by coerced
start, a discontinuity violation for adjacent pair `(k-1, k)` is reported
if and only if the previous record's coerced end is not *exactly* equal to
the next record's coerced start — the comparison is exact numeric
equality, with no tolerance, so any gap or overlap of any magnitude is
reported. -/
theorem checkDepthStartEnd_exact_discontinuity (rows : JVal) (opt : COpt)
    (k : ℕ) (h1 : 1 ≤ k) (h2 : k < (elemsOf rows).length) :
    (∃ x y, Err.endNeStart k x y ∈ checkDepthStartEnd rows opt) ↔
      keyAt (effStr opt.keyDepthEnd "depthEnd")
        (sortByKey (effStr opt.keyDepthStart "depthStart") (elemsOf rows))
        (k - 1) ≠
      keyAt (effStr opt.keyDepthStart "depthStart")
        (sortByKey (effStr opt.keyDepthStart "depthStart") (elemsOf rows)) k := by
  have h : isearr rows = true := isearr_of_elems rows (by omega)
  have hlen : (sortByKey (effStr opt.keyDepthStart "depthStart")
      (elemsOf rows)).length = (elemsOf rows).length :=
    (List.perm_insertionSort _ _).length_eq
  have hrw : checkDepthStartEnd rows opt =
      startEndNumErrs (effStr opt.keyDepthStart "depthStart")
        (effStr opt.keyDepthEnd "depthEnd") (elemsOf rows) ++
      pairScanErrs (effStr opt.keyDepthStart "depthStart")
        (effStr opt.keyDepthEnd "depthEnd")
        (sortByKey (effStr opt.keyDepthStart "depthStart") (elemsOf rows)) := by
    rw [checkDepthStartEnd, h]
    rfl
  constructor
  · rintro ⟨x, y, hm⟩
    rw [hrw, List.mem_append] at hm
    rcases hm with hm | hm
    · exact absurd hm (endNeStart_not_mem_numErrs _ _ _ _ _ _)
    · exact ((endNeStart_mem_pairScan _ _ _ _ _ _).mp hm).2.2.1
  · intro hne
    refine ⟨keyAt (effStr opt.keyDepthEnd "depthEnd")
        (sortByKey (effStr opt.keyDepthStart "depthStart") (elemsOf rows))
        (k - 1),
      keyAt (effStr opt.keyDepthStart "depthStart")
        (sortByKey (effStr opt.keyDepthStart "depthStart") (elemsOf rows)) k,
      ?_⟩
    rw [hrw, List.mem_append]
    right
    exact (endNeStart_mem_pairScan _ _ _ _ _ _).mpr
      ⟨h1, by rw [hlen]; exact h2, hne, rfl, rfl⟩

theorem checkDepthStartEnd_exact_discontinuity_witness :
    (1 ≤ 1 ∧ 1 < (elemsOf exIntervalsGap).length) ∧
    (∃ x y, Err.endNeStart 1 x y ∈ checkDepthStartEnd exIntervalsGap cdef) := by
  refine ⟨⟨le_refl 1, by decide⟩, ?_⟩
  exact (checkDepthStartEnd_exact_discontinuity exIntervalsGap cdef 1
    (le_refl 1) (by decide)).mpr (by decide)

/-! ## Claims C2 and C3 -/

theorem centerErrs_eq_nil (kd : String) (rl : List JVal) :
    centerErrs kd rl = [] ↔ ∀ t ∈ rl, isnum (jget t kd) = true := by
  rw [centerErrs, List.filterMap_eq_nil_iff]
  constructor
  · intro h t ht
    obtain ⟨i, hi, rfl⟩ := List.mem_iff_getElem.mp ht
    have hc := h i (List.mem_range.mpr hi)
    rw [List.getD_eq_getElem _ _ hi] at hc
    by_cases hn : isnum (jget rl[i] kd) = true
    · exact hn
    · rw [if_neg hn] at hc
      exact absurd hc (Option.some_ne_none _)
  · intro h k hk
    rw [List.mem_range] at hk
    rw [List.getD_eq_getElem _ _ hk, if_pos (h _ (List.getElem_mem hk))]

theorem jget_jset2_fst (v : JVal) (l : List (String × JVal))
    (hv : v = JVal.obj l) (ks ke : String) (hne : ks ≠ ke) (a b : JVal) :
    jget (jset (jset v ks a) ke b) ks = a := by
  subst hv
  rw [jget_jset_ne _ _ _ _ hne]
  exact jget_jset_self _ _ _

theorem jget_jset2_snd (v : JVal) (l : List (String × JVal))
    (hv : v = JVal.obj l) (ks ke : String) (a b : JVal) :
    jget (jset (jset v ks a) ke b) ke = b := by
  subst hv
  exact jget_jset_self _ _ _

theorem getD_set_ne (l : List JVal) (i j : ℕ) (a : JVal) (h : i ≠ j) :
    (l.set i a).getD j JVal.nul = l.getD j JVal.nul := by
  by_cases hj : j < l.length
  · rw [List.getD_eq_getElem _ _ (by rw [List.length_set]; exact hj),
      List.getD_eq_getElem _ _ hj]
    exact List.getElem_set_ne h _
  · rw [List.getD_eq_default _ _ (by rw [List.length_set]; omega),
      List.getD_eq_default _ _ (by omega)]

theorem getD_set_self (l : List JVal) (i : ℕ) (a : JVal) (hi : i < l.length) :
    (l.set i a).getD i JVal.nul = a := by
  rw [List.getD_eq_getElem _ _ (by rw [List.length_set]; exact hi)]
  exact List.getElem_set_self _

theorem startVal_congr (kd : String) (cur srl : List JVal)
    (h : ∀ j, jget (cur.getD j JVal.nul) kd = jget (srl.getD j JVal.nul) kd)
    (k : ℕ) : startVal kd cur k = startVal kd srl k := by
  simp only [startVal, keyAt, h]

theorem endVal_congr (kd : String) (cur srl : List JVal)
    (hlen : cur.length = srl.length)
    (h : ∀ j, jget (cur.getD j JVal.nul) kd = jget (srl.getD j JVal.nul) kd)
    (k : ℕ) : endVal kd cur k = endVal kd srl k := by
  simp only [endVal, keyAt, h, hlen]

theorem assignIter_succ (kd ks ke : String) (srl : List JVal) (m : ℕ) :
    assignIter kd ks ke srl (m + 1) =
      assignStep kd ks ke (assignIter kd ks ke srl m) m := by
  rw [assignIter, assignIter, List.range_succ, List.foldl_concat]

theorem assignIter_length (kd ks ke : String) (srl : List JVal) (m : ℕ) :
    (assignIter kd ks ke srl m).length = srl.length := by
  induction m with
  | zero => rfl
  | succ m ih => rw [assignIter_succ, assignStep, List.length_set, ih]

theorem assignStartEnd_length (kd ks ke : String) (srl : List JVal) :
    (assignStartEnd kd ks ke srl).length = srl.length :=
  assignIter_length kd ks ke srl srl.length

/-- The fold invariant of the in-place final `map`: writes only touch
the `ks`/`ke` fields, so when the depth key is distinct from both, every
record's depth field survives every iteration; indices not yet reached
are still the pristine snapshot records, and every already-processed
index holds exactly the snapshot-expressed record `assignOne`. -/
theorem assignIter_spec (kd ks ke : String) (srl : List JVal)
    (hks : kd ≠ ks) (hke : kd ≠ ke) :
    ∀ m, m ≤ srl.length →
    (assignIter kd ks ke srl m).length = srl.length ∧
    (∀ j, jget ((assignIter kd ks ke srl m).getD j JVal.nul) kd =
      jget (srl.getD j JVal.nul) kd) ∧
    (∀ j, m ≤ j → (assignIter kd ks ke srl m).getD j JVal.nul =
      srl.getD j JVal.nul) ∧
    (∀ j, j < m → (assignIter kd ks ke srl m).getD j JVal.nul =
      assignOne kd ks ke srl j) := by
  intro m
  induction m with
  | zero =>
    exact fun _ => ⟨rfl, fun j => rfl, fun j _ => rfl,
      fun j hj => absurd hj (Nat.not_lt_zero j)⟩
  | succ m ih =>
    intro hm
    obtain ⟨ih1, ih2, ih3, ih4⟩ := ih (by omega)
    have hmlen : m < (assignIter kd ks ke srl m).length := by
      rw [ih1]
      omega
    rw [assignIter_succ, assignStep]
    refine ⟨?_, ?_, ?_, ?_⟩
    · rw [List.length_set, ih1]
    · intro j
      by_cases hj : j = m
      · subst hj
        rw [getD_set_self _ _ _ hmlen, jget_jset_ne _ _ _ _ hke,
          jget_jset_ne _ _ _ _ hks, ih2 j]
      · rw [getD_set_ne _ _ _ _ (fun hc => hj hc.symm), ih2 j]
    · intro j hj
      rw [getD_set_ne _ _ _ _ (by omega), ih3 j (by omega)]
    · intro j hj
      by_cases hj' : j = m
      · subst hj'
        rw [getD_set_self _ _ _ hmlen, ih3 j (le_refl j),
          startVal_congr kd _ srl ih2 j, endVal_congr kd _ srl ih1 ih2 j]
        rfl
      · rw [getD_set_ne _ _ _ _ (by omega), ih4 j (by omega)]

theorem assignStartEnd_getD_eq (kd ks ke : String) (srl : List JVal)
    (hks : kd ≠ ks) (hke : kd ≠ ke) (i : ℕ) (hi : i < srl.length) :
    (assignStartEnd kd ks ke srl).getD i JVal.nul =
      assignOne kd ks ke srl i :=
  (assignIter_spec kd ks ke srl hks hke srl.length (le_refl _)).2.2.2 i hi

theorem startVal_of_num (kd : String) (srl : List JVal)
    (hnum : ∀ j, j < srl.length →
      isnum (jget (srl.getD j JVal.nul) kd) = true)
    (i : ℕ) (hi : i < srl.length) :
    startVal kd srl i = JVal.num (if i = 0 then min 0 (keyAt kd srl 0)
      else (keyAt kd srl (i - 1) + keyAt kd srl i) / 2) := by
  by_cases h0 : i = 0
  · subst h0
    rw [startVal, if_pos rfl, if_pos (hnum 0 hi), if_pos rfl]
  · rw [startVal, if_neg h0,
      if_pos (by rw [hnum (i - 1) (by omega), hnum i hi]; rfl), if_neg h0]

theorem endVal_of_num (kd : String) (srl : List JVal)
    (hnum : ∀ j, j < srl.length →
      isnum (jget (srl.getD j JVal.nul) kd) = true)
    (i : ℕ) (hi : i < srl.length) :
    endVal kd srl i = JVal.num (if i = srl.length - 1 then keyAt kd srl i
      else (keyAt kd srl i + keyAt kd srl (i + 1)) / 2) := by
  by_cases hup : i = srl.length - 1
  · rw [endVal, if_pos hup, if_pos (hnum i hi), if_pos hup]
  · rw [endVal, if_neg hup,
      if_pos (by rw [hnum i hi, hnum (i + 1) (by omega)]; rfl), if_neg hup]

theorem calc_ok_elim (rows : JVal) (opt : GOpt) (out : List JVal)
    (hok : calcDepthStartEndFromCenter rows opt = Except.ok out) :
    isearr rows = true ∧
    centerErrs (effStr opt.keyDepth "depth") (elemsOf rows) = [] ∧
    dupErrs (effStr opt.keyDepth "depth")
      (sortByKey (effStr opt.keyDepth "depth") (elemsOf rows)) = [] ∧
    out = assignStartEnd (effStr opt.keyDepth "depth")
      (effStr opt.keyDepthStart "depthStart") (effStr opt.keyDepthEnd "depthEnd")
      (sortByKey (effStr opt.keyDepth "depth") (elemsOf rows)) := by
  rw [calcDepthStartEndFromCenter] at hok
  split_ifs at hok with h1 h2 h3
  exact ⟨by simpa using h1, by simpa [List.isEmpty_iff] using h2,
    by simpa [List.isEmpty_iff] using h3, (Except.ok.inj hok).symm⟩

/-- Shared formula lemma for C2 and C3: on the success path, when the
three configured fields are pairwise distinct (the data model's center
depth, start and end), the output record at sorted position `i` carries
exactly the spec's start/end values.  The distinctness of the depth key
from both output keys is what keeps the in-place writes from overwriting
depths that later iterations read. -/
theorem calc_ok_formulas (rows : JVal) (opt : GOpt) (out : List JVal)
    (hok : calcDepthStartEndFromCenter rows opt = Except.ok out)
    (hne : effStr opt.keyDepthStart "depthStart" ≠
      effStr opt.keyDepthEnd "depthEnd")
    (hks : effStr opt.keyDepth "depth" ≠ effStr opt.keyDepthStart "depthStart")
    (hke : effStr opt.keyDepth "depth" ≠ effStr opt.keyDepthEnd "depthEnd") :
    out.length = (elemsOf rows).length ∧
    ∀ i, i < out.length →
      jget (out.getD i JVal.nul) (effStr opt.keyDepthStart "depthStart") =
        JVal.num (if i = 0
          then min 0 (keyAt (effStr opt.keyDepth "depth")
            (sortByKey (effStr opt.keyDepth "depth") (elemsOf rows)) 0)
          else (keyAt (effStr opt.keyDepth "depth")
              (sortByKey (effStr opt.keyDepth "depth") (elemsOf rows)) (i - 1) +
            keyAt (effStr opt.keyDepth "depth")
              (sortByKey (effStr opt.keyDepth "depth") (elemsOf rows)) i) / 2) ∧
      jget (out.getD i JVal.nul) (effStr opt.keyDepthEnd "depthEnd") =
        JVal.num (if i = out.length - 1
          then keyAt (effStr opt.keyDepth "depth")
            (sortByKey (effStr opt.keyDepth "depth") (elemsOf rows)) i
          else (keyAt (effStr opt.keyDepth "depth")
              (sortByKey (effStr opt.keyDepth "depth") (elemsOf rows)) i +
            keyAt (effStr opt.keyDepth "depth")
              (sortByKey (effStr opt.keyDepth "depth") (elemsOf rows)) (i + 1)) / 2) := by
  obtain ⟨ha, hc, hd, hout⟩ := calc_ok_elim rows opt out hok
  subst hout
  have hlen : (sortByKey (effStr opt.keyDepth "depth") (elemsOf rows)).length =
      (elemsOf rows).length := (List.perm_insertionSort _ _).length_eq
  have hnumAll := (centerErrs_eq_nil _ _).mp hc
  have hnum : ∀ j, j < (sortByKey (effStr opt.keyDepth "depth")
        (elemsOf rows)).length →
      isnum (jget ((sortByKey (effStr opt.keyDepth "depth")
        (elemsOf rows)).getD j JVal.nul) (effStr opt.keyDepth "depth")) = true := by
    intro j hj
    rw [List.getD_eq_getElem _ _ hj]
    exact hnumAll _ ((List.perm_insertionSort _ _).subset (List.getElem_mem hj))
  refine ⟨by rw [assignStartEnd_length, hlen], ?_⟩
  intro i hi
  rw [assignStartEnd_length] at hi
  obtain ⟨l1, hl1⟩ := isnum_jget_obj _ _ (hnum i hi)
  rw [assignStartEnd_getD_eq _ _ _ _ hks hke i hi, assignOne]
  constructor
  · rw [jget_jset2_fst _ l1 hl1 _ _ hne]
    exact startVal_of_num _ _ hnum i hi
  · rw [jget_jset2_snd _ l1 hl1]
    rw [assignStartEnd_length]
    exact endVal_of_num _ _ hnum i hi

/-- C2: for every input on which `calcDepthStartEndFromCenter` succeeds,
with samples indexed `0 .. n-1` in sorted order: `start(0) = min(0,
depth(0))`; for interior `i > 0`, `start(i) = (depth(i-1) + depth(i)) /
2`; for `i < n-1`, `end(i) = (depth(i) + depth(i+1)) / 2`; and `end(n-1)
= depth(n-1)`.  The configured center-depth, start and end fields are
required pairwise distinct, as in the data model: the source writes the
output fields onto the live records in place, so a depth key colliding
with an output key would make later iterations read overwritten
depths. -/
theorem calc_midpoint_bisection (rows : JVal) (opt : GOpt) (out : List JVal)
    (hok : calcDepthStartEndFromCenter rows opt = Except.ok out)
    (hne : effStr opt.keyDepthStart "depthStart" ≠
      effStr opt.keyDepthEnd "depthEnd")
    (hks : effStr opt.keyDepth "depth" ≠ effStr opt.keyDepthStart "depthStart")
    (hke : effStr opt.keyDepth "depth" ≠ effStr opt.keyDepthEnd "depthEnd") :
    out.length = (elemsOf rows).length ∧
    ∀ i, i < out.length →
      jget (out.getD i JVal.nul) (effStr opt.keyDepthStart "depthStart") =
        JVal.num (if i = 0
          then min 0 (keyAt (effStr opt.keyDepth "depth")
            (sortByKey (effStr opt.keyDepth "depth") (elemsOf rows)) 0)
          else (keyAt (effStr opt.keyDepth "depth")
              (sortByKey (effStr opt.keyDepth "depth") (elemsOf rows)) (i - 1) +
            keyAt (effStr opt.keyDepth "depth")
              (sortByKey (effStr opt.keyDepth "depth") (elemsOf rows)) i) / 2) ∧
      jget (out.getD i JVal.nul) (effStr opt.keyDepthEnd "depthEnd") =
        JVal.num (if i = out.length - 1
          then keyAt (effStr opt.keyDepth "depth")
            (sortByKey (effStr opt.keyDepth "depth") (elemsOf rows)) i
          else (keyAt (effStr opt.keyDepth "depth")
              (sortByKey (effStr opt.keyDepth "depth") (elemsOf rows)) i +
            keyAt (effStr opt.keyDepth "depth")
              (sortByKey (effStr opt.keyDepth "depth") (elemsOf rows)) (i + 1)) / 2) :=
  calc_ok_formulas rows opt out hok hne hks hke

theorem calc_midpoint_bisection_witness :
    calcDepthStartEndFromCenter exCenterRows gdef = Except.ok exCenterOut ∧
    exCenterOut.length = (elemsOf exCenterRows).length := by
  have h := calc_midpoint_bisection exCenterRows gdef exCenterOut
    (by with_unfolding_all rfl) (by decide) (by decide) (by decide)
  exact ⟨by with_unfolding_all rfl, h.1⟩

/-- C3: on the success path of `calcDepthStartEndFromCenter`, with the
configured center-depth, start and end fields pairwise distinct (the
data model's three fields; a depth key colliding with an output key
would let the in-place writes corrupt the depths later midpoints read),
the derived intervals are contiguous by construction: the end of
interval `i` is *exactly* equal to the start of interval `i + 1`, both
being the same shared midpoint value. -/
theorem calc_contiguity (rows : JVal) (opt : GOpt) (out : List JVal)
    (hok : calcDepthStartEndFromCenter rows opt = Except.ok out)
    (hne : effStr opt.keyDepthStart "depthStart" ≠
      effStr opt.keyDepthEnd "depthEnd")
    (hks : effStr opt.keyDepth "depth" ≠ effStr opt.keyDepthStart "depthStart")
    (hke : effStr opt.keyDepth "depth" ≠ effStr opt.keyDepthEnd "depthEnd") :
    ∀ i, i + 1 < out.length →
      jget (out.getD i JVal.nul) (effStr opt.keyDepthEnd "depthEnd") =
      jget (out.getD (i + 1) JVal.nul) (effStr opt.keyDepthStart "depthStart") := by
  obtain ⟨hlen, hf⟩ := calc_ok_formulas rows opt out hok hne hks hke
  intro i hi
  have he := (hf i (by omega)).2
  have hs := (hf (i + 1) (by omega)).1
  rw [if_neg (by omega : ¬ i = out.length - 1)] at he
  rw [if_neg (by omega : ¬ i + 1 = 0)] at hs
  rw [he, hs]
  norm_num

theorem calc_contiguity_witness :
    jget (exCenterOut.getD 0 JVal.nul) "depthEnd" =
      jget (exCenterOut.getD 1 JVal.nul) "depthStart" :=
  calc_contiguity exCenterRows gdef exCenterOut
    (by with_unfolding_all rfl) (by decide) (by decide) (by decide) 0
    (by decide)

/-! ## The grouping scan -/

theorem sorted_sortByKey (kd : String) (l : List JVal) :
    List.Sorted (depthLe kd) (sortByKey kd l) :=
  List.sorted_insertionSort (depthLe kd) l

theorem memB_eq_true_iff (kd ks ke : String) (r t : JVal) :
    memB kd (cdbl (jget r ks)) (cdbl (jget r ke)) t = true ↔
      memQ kd ks ke r t := by
  rw [memB, memQ, decide_eq_true_eq]

theorem rowsList_jset (l : List (String × JVal)) (g : List JVal) :
    rowsList (jset (JVal.obj l) "rows" (JVal.arr g)) = g := by
  rw [rowsList, jget_jset_self]

theorem scanRange_eq (kd : String) (ds de : ℚ) (ts : List JVal)
    (h : List.Sorted (depthLe kd) ts) :
    scanRange kd ds de ts =
      (ts.filter (memB kd ds de), ts.filter fun t => !memB kd ds de t) := by
  induction ts with
  | nil => simp [scanRange]
  | cons t ts ih =>
    rw [List.sorted_cons] at h
    obtain ⟨hrel, hs⟩ := h
    by_cases h1 : ds ≤ cdbl (jget t kd) ∧ cdbl (jget t kd) ≤ de
    · have hb : memB kd ds de t = true := decide_eq_true h1
      simp only [scanRange, if_pos h1, ih hs, List.filter_cons, hb,
        Bool.not_true, Bool.false_eq_true, if_false, if_pos, cond_true,
        cond_false]
    · have hb : memB kd ds de t = false := by
        rw [memB, decide_eq_false_iff_not]
        exact h1
      by_cases h2 : de < cdbl (jget t kd)
      · have hnil : (t :: ts).filter (memB kd ds de) = [] := by
          rw [List.filter_eq_nil_iff]
          intro u hu
          rcases List.mem_cons.mp hu with rfl | hu'
          · rw [hb]
            exact Bool.false_ne_true
          · rw [memB, decide_eq_true_eq]
            rintro ⟨-, hle⟩
            exact absurd (lt_of_lt_of_le h2 (hrel u hu')) (not_lt_of_le hle)
        have hall : (t :: ts).filter (fun u => !memB kd ds de u) = t :: ts := by
          rw [List.filter_eq_self]
          intro u hu
          rw [Bool.not_eq_true']
          rcases List.mem_cons.mp hu with rfl | hu'
          · exact hb
          · rw [memB, decide_eq_false_iff_not]
            rintro ⟨-, hle⟩
            exact absurd (lt_of_lt_of_le h2 (hrel u hu')) (not_lt_of_le hle)
        rw [hnil, hall]
        simp only [scanRange, if_neg h1, if_pos h2]
      · simp only [scanRange, if_neg h1, if_neg h2, ih hs, List.filter_cons,
          hb]
        simp

theorem groupLoop_length (kd ks ke : String) (ts rs : List JVal) :
    (groupLoop kd ks ke ts rs).length = rs.length := by
  induction rs generalizing ts with
  | nil => simp [groupLoop]
  | cons r rs ih => simp [groupLoop, ih]

theorem groupLoop_cons (kd ks ke : String) (ts : List JVal) (r : JVal)
    (rs : List JVal) :
    groupLoop kd ks ke ts (r :: rs) =
      jset r "rows"
        (JVal.arr (scanRange kd (cdbl (jget r ks)) (cdbl (jget r ke)) ts).1) ::
      groupLoop kd ks ke
        (scanRange kd (cdbl (jget r ks)) (cdbl (jget r ke)) ts).2 rs := by
  simp [groupLoop]

theorem groupLoop_getD_jset (kd ks ke : String) (ts rs : List JVal) (j : ℕ)
    (hj : j < rs.length) :
    ∃ g : List JVal, (groupLoop kd ks ke ts rs).getD j JVal.nul =
      jset (rs.getD j JVal.nul) "rows" (JVal.arr g) := by
  induction rs generalizing ts j with
  | nil => exact absurd hj (by simp)
  | cons r rs ih =>
    cases j with
    | zero =>
      exact ⟨(scanRange kd (cdbl (jget r ks)) (cdbl (jget r ke)) ts).1,
        by rw [groupLoop_cons, List.getD_cons_zero, List.getD_cons_zero]⟩
    | succ j =>
      obtain ⟨g, hg⟩ := ih
        (scanRange kd (cdbl (jget r ks)) (cdbl (jget r ke)) ts).2 j
        (by simpa using hj)
      exact ⟨g, by rw [groupLoop_cons, List.getD_cons_succ, List.getD_cons_succ,
        hg]⟩

theorem mem_rowsList_groupLoop (kd ks ke : String) (ts rs : List JVal)
    (hs : List.Sorted (depthLe kd) ts)
    (hobj : ∀ r ∈ rs, isnum (jget r ks) = true)
    (j : ℕ) (hj : j < rs.length) (t : JVal) :
    t ∈ rowsList ((groupLoop kd ks ke ts rs).getD j JVal.nul) ↔
      (t ∈ ts ∧ memQ kd ks ke (rs.getD j JVal.nul) t ∧
       ∀ i, i < j → ¬ memQ kd ks ke (rs.getD i JVal.nul) t) := by
  induction rs generalizing ts j with
  | nil => exact absurd hj (by simp)
  | cons r rs ih =>
    obtain ⟨lr, hlr⟩ := isnum_jget_obj r ks (hobj r (List.mem_cons_self r rs))
    have hscan := scanRange_eq kd (cdbl (jget r ks)) (cdbl (jget r ke)) ts hs
    have hfst : (scanRange kd (cdbl (jget r ks)) (cdbl (jget r ke)) ts).1 =
        ts.filter (memB kd (cdbl (jget r ks)) (cdbl (jget r ke))) := by
      rw [hscan]
    have hsnd : (scanRange kd (cdbl (jget r ks)) (cdbl (jget r ke)) ts).2 =
        ts.filter fun u => !memB kd (cdbl (jget r ks)) (cdbl (jget r ke)) u := by
      rw [hscan]
    cases j with
    | zero =>
      rw [groupLoop_cons, List.getD_cons_zero, List.getD_cons_zero, hfst, hlr,
        rowsList_jset, List.mem_filter, memB_eq_true_iff]
      simp only [Nat.not_lt_zero, false_implies, implies_true, and_true]
    | succ j =>
      rw [groupLoop_cons, List.getD_cons_succ, List.getD_cons_succ, hsnd]
      rw [ih (ts.filter fun u => !memB kd (cdbl (jget r ks)) (cdbl (jget r ke)) u)
        (List.Sorted.filter _ hs)
        (fun r' hr' => hobj r' (List.mem_cons_of_mem r hr'))
        j (by simpa using hj)]
      constructor
      · rintro ⟨htf, hm, hlt⟩
        rw [List.mem_filter] at htf
        refine ⟨htf.1, hm, ?_⟩
        intro i hi
        cases i with
        | zero =>
          rw [List.getD_cons_zero]
          intro hcon
          have := htf.2
          rw [Bool.not_eq_true', memB, decide_eq_false_iff_not] at this
          exact this hcon
        | succ i =>
          rw [List.getD_cons_succ]
          exact hlt i (by omega)
      · rintro ⟨htm, hm, hlt⟩
        refine ⟨?_, hm, ?_⟩
        · rw [List.mem_filter]
          refine ⟨htm, ?_⟩
          rw [Bool.not_eq_true', memB, decide_eq_false_iff_not]
          have := hlt 0 (by omega)
          rw [List.getD_cons_zero] at this
          exact this
        · intro i hi
          have := hlt (i + 1) (by omega)
          rw [List.getD_cons_succ] at this
          exact this

theorem groupLoop_union_perm (kd ks ke : String) (ts rs : List JVal)
    (hs : List.Sorted (depthLe kd) ts)
    (hobj : ∀ r ∈ rs, isnum (jget r ks) = true) :
    ((groupLoop kd ks ke ts rs).flatMap rowsList ++
      ts.filter (unclaimed kd ks ke rs)).Perm ts := by
  induction rs generalizing ts with
  | nil =>
    simp only [groupLoop, List.flatMap_nil, List.nil_append]
    have : ts.filter (unclaimed kd ks ke []) = ts := by
      rw [List.filter_eq_self]
      intro u hu
      rw [unclaimed]
      simp
    rw [this]
  | cons r rs ih =>
    obtain ⟨lr, hlr⟩ := isnum_jget_obj r ks (hobj r (List.mem_cons_self r rs))
    have hscan := scanRange_eq kd (cdbl (jget r ks)) (cdbl (jget r ke)) ts hs
    have hfst : (scanRange kd (cdbl (jget r ks)) (cdbl (jget r ke)) ts).1 =
        ts.filter (memB kd (cdbl (jget r ks)) (cdbl (jget r ke))) := by
      rw [hscan]
    have hsnd : (scanRange kd (cdbl (jget r ks)) (cdbl (jget r ke)) ts).2 =
        ts.filter fun u => !memB kd (cdbl (jget r ks)) (cdbl (jget r ke)) u := by
      rw [hscan]
    have hunc : ts.filter (unclaimed kd ks ke (r :: rs)) =
        (ts.filter fun u => !memB kd (cdbl (jget r ks)) (cdbl (jget r ke)) u).filter
          (unclaimed kd ks ke rs) := by
      rw [List.filter_filter]
      apply List.filter_congr
      intro x _
      rw [unclaimed, unclaimed, List.all_cons, Bool.and_comm]
    have ihx := ih
      (ts.filter fun u => !memB kd (cdbl (jget r ks)) (cdbl (jget r ke)) u)
      (List.Sorted.filter _ hs)
      (fun r' hr' => hobj r' (List.mem_cons_of_mem r hr'))
    rw [groupLoop_cons, List.flatMap_cons, hfst, hsnd, hunc, hlr, rowsList_jset,
      List.append_assoc]
    rw [← hlr]
    refine List.Perm.trans (List.Perm.append_left _ ihx) ?_
    exact List.filter_append_perm _ ts

/-! ## Success-path inversion for groupByDepthStartEnd -/

theorem rangeNumErrs_eq_nil (ks ke : String) (ds : List JVal) :
    rangeNumErrs ks ke ds = [] ↔
      ∀ r ∈ ds, isnum (jget r ks) = true ∧ isnum (jget r ke) = true := by
  rw [rangeNumErrs, List.flatMap_eq_nil_iff]
  constructor
  · intro h t ht
    obtain ⟨i, hi, rfl⟩ := List.mem_iff_getElem.mp ht
    have hc := h i (List.mem_range.mpr hi)
    rw [List.getD_eq_getElem _ _ hi] at hc
    by_cases h1 : isnum (jget ds[i] ks) = true <;>
      by_cases h2 : isnum (jget ds[i] ke) = true <;>
      simp [h1, h2] at hc ⊢
  · intro h k hk
    rw [List.mem_range] at hk
    rw [List.getD_eq_getElem _ _ hk]
    have := h ds[k] (List.getElem_mem hk)
    simp [this.1, this.2]

theorem rangeOrderErrs_eq_nil (ks ke : String) (ds : List JVal) :
    rangeOrderErrs ks ke ds = [] ↔
      (∀ k, k < ds.length → keyAt ks ds k ≤ keyAt ke ds k) ∧
      (∀ k, 1 ≤ k → k < ds.length →
        keyAt ke ds (k - 1) ≤ keyAt ks ds k) := by
  rw [rangeOrderErrs, List.flatMap_eq_nil_iff]
  constructor
  · intro h
    constructor
    · intro k hk
      have hc := (List.append_eq_nil.mp (h k (List.mem_range.mpr hk))).1
      by_cases hgt : keyAt ks ds k > keyAt ke ds k
      · rw [if_pos hgt] at hc
        exact absurd hc (List.cons_ne_nil _ _)
      · exact le_of_not_lt hgt
    · intro k hk1 hk
      have hc := (List.append_eq_nil.mp (h k (List.mem_range.mpr hk))).2
      rw [if_neg (by omega : ¬ k = 0)] at hc
      by_cases hgt : keyAt ke ds (k - 1) > keyAt ks ds k
      · rw [if_pos hgt] at hc
        exact absurd hc (List.cons_ne_nil _ _)
      · exact le_of_not_lt hgt
  · rintro ⟨hle, hseq⟩ k hk
    rw [List.mem_range] at hk
    rw [List.append_eq_nil]
    constructor
    · rw [if_neg (not_lt_of_le (hle k hk))]
    · by_cases hk0 : k = 0
      · rw [if_pos hk0]
      · rw [if_neg hk0, if_neg (not_lt_of_le (hseq k (by omega) hk))]

theorem group_ok_elim (rows dses : JVal) (opt : GOpt) (out : List JVal)
    (hok : groupByDepthStartEnd rows dses opt = Except.ok out) :
    isearr rows = true ∧
    centerErrs (effStr opt.keyDepth "depth") (elemsOf rows) = [] ∧
    checkDepth (effStr opt.keyDepth "depth")
      (sortByKey (effStr opt.keyDepth "depth") (elemsOf rows)) = [] ∧
    rangeNumErrs (effStr opt.keyDepthStart "depthStart")
      (effStr opt.keyDepthEnd "depthEnd") (normRanges dses) = [] ∧
    rangeOrderErrs (effStr opt.keyDepthStart "depthStart")
      (effStr opt.keyDepthEnd "depthEnd") (normRanges dses) = [] ∧
    out = groupLoop (effStr opt.keyDepth "depth")
      (effStr opt.keyDepthStart "depthStart") (effStr opt.keyDepthEnd "depthEnd")
      (sortByKey (effStr opt.keyDepth "depth") (elemsOf rows))
      (normRanges dses) := by
  rw [groupByDepthStartEnd] at hok
  split_ifs at hok with h1 h2 h3 h4 h5 h6
  exact ⟨by simpa using h1, by simpa [List.isEmpty_iff] using h3,
    by simpa [List.isEmpty_iff] using h4, by simpa [List.isEmpty_iff] using h5,
    by simpa [List.isEmpty_iff] using h6, (Except.ok.inj hok).symm⟩

/-! ## Claim C10 -/

/-- C10: for every successful call to `groupByDepthStartEnd`, the output
groups' sample lists are pairwise disjoint — a sample claimed by one
range is removed from the working pool immediately, so no sample appears
in more than one group, even when adjacent target ranges share a boundary
depth. -/
theorem group_pairwise_disjoint (rows dses : JVal) (opt : GOpt)
    (out : List JVal)
    (hok : groupByDepthStartEnd rows dses opt = Except.ok out)
    (j1 j2 : ℕ) (h1 : j1 < out.length) (h2 : j2 < out.length) (hne : j1 ≠ j2)
    (t : JVal) (ht : t ∈ rowsList (out.getD j1 JVal.nul)) :
    t ∉ rowsList (out.getD j2 JVal.nul) := by
  obtain ⟨-, -, -, hn, -, hout⟩ := group_ok_elim rows dses opt out hok
  subst hout
  rw [groupLoop_length] at h1 h2
  have hobj : ∀ r ∈ normRanges dses,
      isnum (jget r (effStr opt.keyDepthStart "depthStart")) = true :=
    fun r hr => ((rangeNumErrs_eq_nil _ _ _).mp hn r hr).1
  have hs := sorted_sortByKey (effStr opt.keyDepth "depth") (elemsOf rows)
  rw [mem_rowsList_groupLoop _ _ _ _ _ hs hobj j1 h1] at ht
  rw [mem_rowsList_groupLoop _ _ _ _ _ hs hobj j2 h2]
  rintro ⟨-, hm2, hlt2⟩
  rcases Nat.lt_or_ge j1 j2 with hlt | hge
  · exact hlt2 j1 hlt ht.2.1
  · exact ht.2.2 j2 (by omega) hm2

theorem group_pairwise_disjoint_witness :
    JVal.obj [("depth", JVal.num 1)] ∉ rowsList (exGOut.getD 1 JVal.nul) := by
  refine group_pairwise_disjoint exGRows exGRanges gdef exGOut
    (by with_unfolding_all rfl) 0 1 (by decide) (by decide) (by decide)
    (JVal.obj [("depth", JVal.num 1)]) ?_
  with_unfolding_all exact List.Mem.tail _ (List.Mem.head _)

/-! ## Claim C4 -/

/-- C4: when a successful call's target ranges jointly cover every
sample's depth, the union of all group sample lists is a permutation of
the original sample list — no duplicates and no omissions — and every
sample appears in exactly one group. -/
theorem group_exhaustive_partition (rows dses : JVal) (opt : GOpt)
    (out : List JVal)
    (hok : groupByDepthStartEnd rows dses opt = Except.ok out)
    (hcov : ∀ t ∈ elemsOf rows, ∃ r ∈ normRanges dses,
      memQ (effStr opt.keyDepth "depth") (effStr opt.keyDepthStart "depthStart")
        (effStr opt.keyDepthEnd "depthEnd") r t) :
    ((out.flatMap rowsList).Perm (elemsOf rows)) ∧
    ∀ t ∈ elemsOf rows, ∃! j : Fin out.length,
      t ∈ rowsList (out.getD j.val JVal.nul) := by
  obtain ⟨-, -, -, hn, -, hout⟩ := group_ok_elim rows dses opt out hok
  subst hout
  have hobj : ∀ r ∈ normRanges dses,
      isnum (jget r (effStr opt.keyDepthStart "depthStart")) = true :=
    fun r hr => ((rangeNumErrs_eq_nil _ _ _).mp hn r hr).1
  have hs := sorted_sortByKey (effStr opt.keyDepth "depth") (elemsOf rows)
  have hperm : (sortByKey (effStr opt.keyDepth "depth")
      (elemsOf rows)).Perm (elemsOf rows) := List.perm_insertionSort _ _
  constructor
  · have hnone : (sortByKey (effStr opt.keyDepth "depth")
        (elemsOf rows)).filter
          (unclaimed (effStr opt.keyDepth "depth")
            (effStr opt.keyDepthStart "depthStart")
            (effStr opt.keyDepthEnd "depthEnd") (normRanges dses)) = [] := by
      rw [List.filter_eq_nil_iff]
      intro u hu
      obtain ⟨r, hrmem, hrq⟩ := hcov u (hperm.subset hu)
      rw [unclaimed]
      intro hall
      rw [List.all_eq_true] at hall
      have hb := hall r hrmem
      rw [Bool.not_eq_true', memB, decide_eq_false_iff_not] at hb
      exact hb hrq
    have hu := groupLoop_union_perm (effStr opt.keyDepth "depth")
      (effStr opt.keyDepthStart "depthStart") (effStr opt.keyDepthEnd "depthEnd")
      (sortByKey (effStr opt.keyDepth "depth") (elemsOf rows))
      (normRanges dses) hs hobj
    rw [hnone, List.append_nil] at hu
    exact hu.trans hperm
  · intro t htm
    have hts : t ∈ sortByKey (effStr opt.keyDepth "depth") (elemsOf rows) :=
      hperm.mem_iff.mpr htm
    obtain ⟨r0, hr0, hq0⟩ := hcov t htm
    obtain ⟨i0, hi0len, hr0eq⟩ := List.mem_iff_getElem.mp hr0
    have hex : ∃ i, i < (normRanges dses).length ∧
        memQ (effStr opt.keyDepth "depth")
          (effStr opt.keyDepthStart "depthStart")
          (effStr opt.keyDepthEnd "depthEnd")
          ((normRanges dses).getD i JVal.nul) t :=
      ⟨i0, hi0len, by rw [List.getD_eq_getElem _ _ hi0len, hr0eq]; exact hq0⟩
    have hj0len := (Nat.find_spec hex).1
    have hj0q := (Nat.find_spec hex).2
    refine ⟨⟨Nat.find hex, by rw [groupLoop_length]; exact hj0len⟩, ?_, ?_⟩
    · dsimp only
      rw [mem_rowsList_groupLoop _ _ _ _ _ hs hobj (Nat.find hex) hj0len]
      refine ⟨hts, hj0q, ?_⟩
      intro i hi hcon
      exact (Nat.find_min hex hi) ⟨by omega, hcon⟩
    · rintro ⟨j', hj'⟩ hj'mem
      rw [groupLoop_length] at hj'
      dsimp only at hj'mem
      rw [mem_rowsList_groupLoop _ _ _ _ _ hs hobj j' hj'] at hj'mem
      obtain ⟨-, hq', hlt'⟩ := hj'mem
      have hA : ¬ Nat.find hex < j' := fun hc => hlt' (Nat.find hex) hc hj0q
      have hB : ¬ j' < Nat.find hex := fun hc =>
        (Nat.find_min hex hc) ⟨by omega, hq'⟩
      apply Fin.ext
      simp only
      omega

theorem group_exhaustive_partition_witness :
    (exGOutCover.flatMap rowsList).Perm (elemsOf exGRows) :=
  (group_exhaustive_partition exGRows exGRangesCover gdef exGOutCover
    (by with_unfolding_all rfl) (by decide)).1

/-! ## Claim C5 -/

/-- C5: a sample whose depth equals a boundary shared by an earlier range
`i` and a later range `j` (the earlier range's end equals the later
range's start) never lands in the later range's group — removal from the
pool is immediate and irreversible — and if no range before `i` also
covers that depth, range `i` claims the sample. -/
theorem group_boundary_first_wins (rows dses : JVal) (opt : GOpt)
    (out : List JVal)
    (hok : groupByDepthStartEnd rows dses opt = Except.ok out)
    (i j : ℕ) (hij : i < j) (hj : j < out.length)
    (_hshared : keyAt (effStr opt.keyDepthEnd "depthEnd") (normRanges dses) i =
      keyAt (effStr opt.keyDepthStart "depthStart") (normRanges dses) j)
    (t : JVal)
    (ht : cdbl (jget t (effStr opt.keyDepth "depth")) =
      keyAt (effStr opt.keyDepthEnd "depthEnd") (normRanges dses) i) :
    t ∉ rowsList (out.getD j JVal.nul) ∧
    ((t ∈ elemsOf rows ∧
      ∀ i', i' < i → ¬ memQ (effStr opt.keyDepth "depth")
        (effStr opt.keyDepthStart "depthStart")
        (effStr opt.keyDepthEnd "depthEnd")
        ((normRanges dses).getD i' JVal.nul) t) →
      t ∈ rowsList (out.getD i JVal.nul)) := by
  obtain ⟨-, -, -, hn, ho, hout⟩ := group_ok_elim rows dses opt out hok
  subst hout
  rw [groupLoop_length] at hj
  have hobj : ∀ r ∈ normRanges dses,
      isnum (jget r (effStr opt.keyDepthStart "depthStart")) = true :=
    fun r hr => ((rangeNumErrs_eq_nil _ _ _).mp hn r hr).1
  have hs := sorted_sortByKey (effStr opt.keyDepth "depth") (elemsOf rows)
  have hperm : (sortByKey (effStr opt.keyDepth "depth")
      (elemsOf rows)).Perm (elemsOf rows) := List.perm_insertionSort _ _
  have hio : i < (normRanges dses).length := by omega
  have hle := ((rangeOrderErrs_eq_nil _ _ _).mp ho).1 i hio
  have hmemi : memQ (effStr opt.keyDepth "depth")
      (effStr opt.keyDepthStart "depthStart") (effStr opt.keyDepthEnd "depthEnd")
      ((normRanges dses).getD i JVal.nul) t := by
    constructor
    · rw [ht]
      exact hle
    · rw [ht]
      exact le_refl _
  constructor
  · rw [mem_rowsList_groupLoop _ _ _ _ _ hs hobj j hj]
    rintro ⟨-, -, hlt⟩
    exact hlt i hij hmemi
  · rintro ⟨htm, hnone⟩
    rw [mem_rowsList_groupLoop _ _ _ _ _ hs hobj i hio]
    exact ⟨hperm.mem_iff.mpr htm, hmemi, hnone⟩

theorem group_boundary_first_wins_witness :
    JVal.obj [("depth", JVal.num 1)] ∉ rowsList (exGOut.getD 1 JVal.nul) ∧
    JVal.obj [("depth", JVal.num 1)] ∈ rowsList (exGOut.getD 0 JVal.nul) := by
  have h := group_boundary_first_wins exGRows exGRanges gdef exGOut
    (by with_unfolding_all rfl) 0 1 (by decide) (by decide) (by decide)
    (JVal.obj [("depth", JVal.num 1)]) (by decide)
  refine ⟨h.1, h.2 ⟨?_, ?_⟩⟩
  · with_unfolding_all exact List.Mem.tail _ (List.Mem.head _)
  · intro i' hi'
    exact absurd hi' (by omega)

/-! ## Claim C1 -/

theorem groupBy_eq_of_keys (rows dses : JVal) (opt opt' : GOpt)
    (h1 : opt'.keyDepth = opt.keyDepth)
    (h2 : opt'.keyDepthStart = opt.keyDepthStart)
    (h3 : opt'.keyDepthEnd = opt.keyDepthEnd) :
    groupByDepthStartEnd rows dses opt' = groupByDepthStartEnd rows dses opt := by
  rw [groupByDepthStartEnd, groupByDepthStartEnd, h1, h2, h3]

/-- C1 (counterexample): calling `groupByDepthStartEnd` with the
non-default option `keyGroup = "g"` still attaches the matched samples
under the literal field `rows` and produces no field `g` — refuting the
claim that the samples appear under the configured `keyGroup` key. -/
theorem group_keyGroup_ignored_cex :
    groupByDepthStartEnd exGRows exGRanges gkg = Except.ok exGOut ∧
    jget (exGOut.getD 0 JVal.nul) "g" = JVal.nul ∧
    jget (exGOut.getD 0 JVal.nul) "rows" =
      JVal.arr [JVal.obj [("depth", JVal.num 0)],
        JVal.obj [("depth", JVal.num 1)]] := by
  refine ⟨by with_unfolding_all rfl, by with_unfolding_all rfl,
    by with_unfolding_all rfl⟩

/-- C1 (amended): on success, `groupByDepthStartEnd` returns exactly one
group per input target range, in the caller's given order; every field of
the range record other than `rows` is preserved with its name and value;
and the matched-sample list is attached under the *fixed literal* key
`rows` — the result depends only on `keyDepth`, `keyDepthStart` and
`keyDepthEnd`, so `opt.keyGroup` (documented but never read) cannot move
the sample list to another key. -/
theorem group_output_shape (rows dses : JVal) (opt : GOpt) (out : List JVal)
    (hok : groupByDepthStartEnd rows dses opt = Except.ok out) :
    (∀ opt' : GOpt, opt'.keyDepth = opt.keyDepth →
      opt'.keyDepthStart = opt.keyDepthStart →
      opt'.keyDepthEnd = opt.keyDepthEnd →
      groupByDepthStartEnd rows dses opt' = Except.ok out) ∧
    out.length = (normRanges dses).length ∧
    ∀ j, j < out.length →
      (∀ key, key ≠ "rows" → jget (out.getD j JVal.nul) key =
        jget ((normRanges dses).getD j JVal.nul) key) ∧
      jget (out.getD j JVal.nul) "rows" =
        JVal.arr (rowsList (out.getD j JVal.nul)) := by
  obtain ⟨-, -, -, hn, -, hout⟩ := group_ok_elim rows dses opt out hok
  refine ⟨fun opt' e1 e2 e3 => ?_, ?_, ?_⟩
  · rw [groupBy_eq_of_keys rows dses opt opt' e1 e2 e3]
    exact hok
  · rw [hout, groupLoop_length]
  · intro j hjl
    have hjl' : j < (normRanges dses).length := by
      rw [hout, groupLoop_length] at hjl
      exact hjl
    have hobjj : isnum (jget ((normRanges dses).getD j JVal.nul)
        (effStr opt.keyDepthStart "depthStart")) = true := by
      rw [List.getD_eq_getElem _ _ hjl']
      exact ((rangeNumErrs_eq_nil _ _ _).mp hn _ (List.getElem_mem hjl')).1
    obtain ⟨lr, hlr⟩ := isnum_jget_obj _ _ hobjj
    obtain ⟨g, hg⟩ := groupLoop_getD_jset (effStr opt.keyDepth "depth")
      (effStr opt.keyDepthStart "depthStart") (effStr opt.keyDepthEnd "depthEnd")
      (sortByKey (effStr opt.keyDepth "depth") (elemsOf rows))
      (normRanges dses) j hjl'
    rw [hout, hg]
    constructor
    · intro key hkey
      rw [jget_jset_ne _ _ _ _ hkey]
    · rw [hlr, jget_jset_self, rowsList_jset]

theorem group_output_shape_witness :
    groupByDepthStartEnd exGRows exGRanges (GOpt.mk none (some "gg") none none) =
      Except.ok exGOut ∧
    exGOut.length = (normRanges exGRanges).length := by
  have h := group_output_shape exGRows exGRanges gkg exGOut
    (by with_unfolding_all rfl)
  exact ⟨h.1 (GOpt.mk none (some "gg") none none) rfl rfl rfl, h.2.1⟩
